import Mathlib

/-!
# HMS front-end utilities (`static/js/main.js`)

A shallow embedding of the browser-side helpers of the hospital management
system: the `Validator` namespace, the `API` fetch wrapper, the `DataTable`
widget and the `Modal` widget.  DOM elements are records holding exactly the
properties the script reads or writes; JavaScript strings are `String`s and
every string routine is written by structural recursion over the list of
characters, so that all definitions evaluate.
-/

namespace HMS

/-! ## Strings -/

/-- The characters matched by `\s` in a JavaScript regular expression, which
are also the characters stripped by `String.prototype.trim`
(ECMAScript WhiteSpace and LineTerminator). -/
def isWhiteSpace (c : Char) : Bool :=
  let n := c.toNat
  n == 0x09 || n == 0x0A || n == 0x0B || n == 0x0C || n == 0x0D || n == 0x20 ||
  n == 0xA0 || n == 0x1680 || (0x2000 ≤ n && n ≤ 0x200A) || n == 0x2028 ||
  n == 0x2029 || n == 0x202F || n == 0x205F || n == 0x3000 || n == 0xFEFF

/-- Strip trailing white space from a list of characters. -/
def trimEnd (cs : List Char) : List Char :=
  (cs.reverse.dropWhile isWhiteSpace).reverse

/-- Model of `String.prototype.trim`. -/
def trim (s : String) : String :=
  ⟨trimEnd (s.data.dropWhile isWhiteSpace)⟩

/-! ## Modal -/

/-- The part of the DOM a `Modal` touches: `this.modal.style.display` and
`document.body.style.overflow`. -/
structure ModalState where
  display : String
  overflow : String
  deriving DecidableEq, Repr

namespace Modal

/-- `Modal.open()`: show the modal and suppress page scroll.  (The delayed
focus of the first input does not touch the two style properties.) -/
def «open» (_s : ModalState) : ModalState :=
  { display := "block", overflow := "hidden" }

/-- `Modal.close()`. -/
def close (_s : ModalState) : ModalState :=
  { display := "none", overflow := "" }

/-- `Modal.isOpen()`. -/
def isOpen (s : ModalState) : Bool :=
  s.display == "block"

/-- The `keydown` listener installed by `Modal.init`, applied to an event
whose `key` is `key`. -/
def keydown (key : String) (s : ModalState) : ModalState :=
  if key == "Escape" && isOpen s then close s else s

end Modal

/-! ## Validator.validateForm -/

/-- `errors[fieldName] = message` on a plain object kept as its list of own
entries: an existing key keeps its place and gets the new value, a new key is
appended. -/
def setProp {β : Type} (obj : List (String × β)) (key : String) (v : β) : List (String × β) :=
  match obj with
  | [] => [(key, v)]
  | (k, w) :: rest => if k == key then (k, v) :: rest else (k, w) :: setProp rest key v

/-- `obj[key]` for an own property (`none` stands for `undefined`). -/
def getProp {β : Type} (obj : List (String × β)) (key : String) : Option β :=
  match obj with
  | [] => none
  | (k, w) :: rest => if k == key then some w else getProp rest key

/-- The fragment of regular-expression syntax used by `emailRegex`; a
pattern is matched against the whole input (`^ ... $`). -/
inductive Regex where
  | empty : Regex
  | eps : Regex
  | cls (p : Char → Bool) : Regex
  | alt (r t : Regex) : Regex
  | seq (r t : Regex) : Regex
  | star (r : Regex) : Regex

namespace Regex

/-- The quantifier `+`. -/
def plus (r : Regex) : Regex := seq r (star r)

/-- A literal character. -/
def chr (c : Char) : Regex := cls (fun d => d == c)

/-- Whether the pattern matches the empty input. -/
def nullable : Regex → Bool
  | empty => false
  | eps => true
  | cls _ => false
  | alt r t => nullable r || nullable t
  | seq r t => nullable r && nullable t
  | star _ => true

/-- The pattern left to match after consuming the character `a`. -/
def deriv : Regex → Char → Regex
  | empty, _ => empty
  | eps, _ => empty
  | cls p, a => if p a then eps else empty
  | alt r t, a => alt (deriv r a) (deriv t a)
  | seq r t, a =>
    if nullable r then alt (seq (deriv r a) t) (deriv t a) else seq (deriv r a) t
  | star r, a => seq (deriv r a) (star r)

/-- `RegExp.prototype.test` for an anchored pattern: consume the input
character by character and accept when the remainder is nullable. -/
def test : Regex → List Char → Bool
  | r, [] => nullable r
  | r, a :: s => test (deriv r a) s

/-- The words a pattern denotes. -/
def Matches : Regex → List Char → Prop
  | empty, _ => False
  | eps, s => s = []
  | cls p, s => ∃ c, s = [c] ∧ p c = true
  | alt r t, s => Matches r s ∨ Matches t s
  | seq r t, s => ∃ u v, s = u ++ v ∧ Matches r u ∧ Matches t v
  | star r, s => ∃ L : List (List Char), s = L.flatten ∧ ∀ u ∈ L, Matches r u

end Regex

/-- The character class `[^\s@]`. -/
def notSpaceOrAt (c : Char) : Bool :=
  !isWhiteSpace c && c != '@'

/-- The pattern `/^[^\s@]+@[^\s@]+\.[^\s@]+$/`. -/
def emailRegex : Regex :=
  Regex.seq (Regex.plus (Regex.cls notSpaceOrAt))
    (Regex.seq (Regex.chr '@')
      (Regex.seq (Regex.plus (Regex.cls notSpaceOrAt))
        (Regex.seq (Regex.chr '.') (Regex.plus (Regex.cls notSpaceOrAt)))))

/-- `Validator.isValidEmail(email)` for a string argument. -/
def isValidEmail (email : String) : Bool :=
  emailRegex.test email.data

/-! ## API -/

/-- The JavaScript values that occur in a `fetch` init object: `undefined`,
a string, or a plain object with string-valued properties (a headers object). -/
inductive JSVal where
  | undefined : JSVal
  | str (s : String) : JSVal
  | obj (props : List (String × String)) : JSVal
  deriving DecidableEq, Repr

/-- Object spread `{ ...target, ...source }` on lists of own entries: every
entry of `source` is assigned onto `target` in order. -/
def spread {β : Type} (target source : List (String × β)) : List (String × β) :=
  source.foldl (fun acc kv => setProp acc kv.1 kv.2) target

/-- The characters of a string as index-keyed entries, from index `i` on. -/
def indexedChars (i : Nat) : List Char → List (String × String)
  | [] => []
  | c :: cs => (toString i, String.singleton c) :: indexedChars (i + 1) cs

/-- The own enumerable entries that `...value` copies: none for `undefined`,
the indexed characters for a string, the properties for an object. -/
def ownEntries : JSVal → List (String × String)
  | JSVal.undefined => []
  | JSVal.str s => indexedChars 0 s.data
  | JSVal.obj props => props

/-- The value of `options.headers` (`undefined` when there is no such property). -/
def optionsHeaders (options : List (String × JSVal)) : JSVal :=
  (getProp options "headers").getD JSVal.undefined

/-- The second argument `API.request` passes to `fetch`:
`{ headers: { 'Content-Type': 'application/json', ...options.headers }, ...options }`. -/
def requestInit (options : List (String × JSVal)) : List (String × JSVal) :=
  spread
    [("headers",
      JSVal.obj (spread [("Content-Type", "application/json")] (ownEntries (optionsHeaders options))))]
    options

/-- The init object carries a headers object with `'Content-Type': 'application/json'`. -/
def hasJsonContentType (init : List (String × JSVal)) : Bool :=
  match getProp init "headers" with
  | some (JSVal.obj headers) => getProp headers "Content-Type" == some "application/json"
  | _ => false

/-- The options `API.get` passes on (the default `{}`). -/
def getOptions : List (String × JSVal) := []

/-- The options built by `API.post`; `body` is the result of `JSON.stringify(data)`. -/
def postOptions (body : JSVal) : List (String × JSVal) :=
  [("method", JSVal.str "POST"), ("body", body)]

/-- The options built by `API.put`. -/
def putOptions (body : JSVal) : List (String × JSVal) :=
  [("method", JSVal.str "PUT"), ("body", body)]

/-- The options built by `API.delete`. -/
def deleteOptions : List (String × JSVal) :=
  [("method", JSVal.str "DELETE")]

/-- A thrown value: an `Error` with its message. -/
structure JSError where
  message : String
  deriving DecidableEq, Repr

/-- A response as `API.request` uses it: `ok`, `status`, and the outcome of
`response.json()` (a parsed body of type `β`, or the error it rejects with). -/
structure Response (β : Type) where
  ok : Bool
  status : Nat
  json : Except JSError β

/-- The settled state of the promise returned by `fetch`. -/
inductive FetchOutcome (β : Type) where
  | rejected (e : JSError) : FetchOutcome β
  | resolved (r : Response β) : FetchOutcome β

/-- The observable side effects of `API.request`. -/
inductive Effect where
  | consoleError (label : String) (e : JSError) : Effect
  | showNotification (message : String) (type : String) : Effect
  deriving DecidableEq, Repr

/-- The `try` block of `API.request`. -/
def requestBody {β : Type} (fetch : String → List (String × JSVal) → FetchOutcome β)
    (url : String) (options : List (String × JSVal)) : Except JSError β :=
  match fetch url (requestInit options) with
  | FetchOutcome.rejected e => Except.error e
  | FetchOutcome.resolved response =>
    if !response.ok then
      Except.error { message := "HTTP error! status: " ++ toString response.status }
    else
      response.json

/-- `API.request(url, options)`: the settled result of the returned promise
together with the side effects performed, in order. -/
def request {β : Type} (fetch : String → List (String × JSVal) → FetchOutcome β)
    (url : String) (options : List (String × JSVal)) : Except JSError β × List Effect :=
  match requestBody fetch url options with
  | Except.ok body => (Except.ok body, [])
  | Except.error error =>
    (Except.error error,
      [Effect.consoleError "API request failed:" error,
       Effect.showNotification "An error occurred. Please try again." "error"])

/-- The notifications among a list of effects. -/
def notifications (effects : List Effect) : List (String × String) :=
  effects.filterMap (fun e =>
    match e with
    | Effect.showNotification message type => some (message, type)
    | Effect.consoleError _ _ => none)

/-! ## DataTable -/

/-- The two locale-dependent string built-ins the table widget calls.
`String.prototype.toLowerCase` maps the empty string to itself;
`String.prototype.localeCompare` yields a negative, zero or positive number. -/
structure Runtime where
  toLowerCase : String → String
  toLowerCase_empty : toLowerCase "" = ""
  localeCompare : String → String → Int

/-- A runtime that lower-cases ASCII letters and compares by code point. -/
def asciiRuntime : Runtime where
  toLowerCase := fun s => ⟨s.data.map Char.toLower⟩
  toLowerCase_empty := rfl
  localeCompare := fun a b =>
    if a.data < b.data then -1 else if b.data < a.data then 1 else 0

/-- A `tr` of the table body: the text of each of its cells, the text
content of the whole row, and its `style.display`. -/
structure Row where
  cells : List String
  textContent : String
  display : String
  deriving DecidableEq, Repr

/-- A `th` of the table head: its class list and the `className` of the
first `i` element inside it, if there is one. -/
structure Header where
  classList : List String
  icon : Option String
  deriving DecidableEq, Repr

/-- A table with its head cells and its body rows in document order. -/
structure Table where
  headers : List Header
  rows : List Row
  deriving DecidableEq, Repr

/-- `text.includes(term)` on character lists: `term` occurs at some position. -/
def includesChars (text term : List Char) : Bool :=
  match text with
  | [] => term.isPrefixOf []
  | c :: rest => term.isPrefixOf (c :: rest) || includesChars rest term

/-- `String.prototype.includes`. -/
def includes (text term : String) : Bool :=
  includesChars text.data term.data

namespace DataTable

/-- `DataTable.search(query)`. -/
def search (rt : Runtime) (query : String) (t : Table) : Table :=
  let searchTerm := rt.toLowerCase query
  { t with
    rows := t.rows.map (fun row =>
      let text := rt.toLowerCase row.textContent
      { row with display := if includes text searchTerm then "" else "none" }) }

/-- `DataTable.addSorting()`: every header gets a sort icon appended, so the
first `i` inside it is the one already there or else the new `fas fa-sort`. -/
def addSorting (t : Table) : Table :=
  { t with
    headers := t.headers.map (fun header =>
      { header with icon := some (header.icon.getD "fas fa-sort") }) }

end DataTable

/-- A number as `parseFloat` and subtraction produce it: `NaN`, an infinity,
or the decimal `m * 10 ^ e` (exact; rounding to a double is not modelled, so
the model agrees with the runtime on values a double represents exactly). -/
inductive JSNum where
  | nan : JSNum
  | inf (negative : Bool) : JSNum
  | dec (m : Int) (e : Int) : JSNum
  deriving DecidableEq, Repr

namespace JSNum

/-- `isNaN`. -/
def isNaN : JSNum → Bool
  | nan => true
  | _ => false

/-- The difference `a - b`. -/
def sub : JSNum → JSNum → JSNum
  | nan, _ => nan
  | _, nan => nan
  | inf s, inf s' => if s == s' then nan else inf s
  | inf s, dec _ _ => inf s
  | dec _ _, inf s => inf (!s)
  | dec m e, dec m' e' =>
    let k := min e e'
    dec (m * 10 ^ (e - k).toNat - m' * 10 ^ (e' - k).toNat) k

/-- Whether the number is greater than zero. -/
def isPositive : JSNum → Bool
  | nan => false
  | inf s => !s
  | dec m _ => decide (0 < m)

end JSNum

/-- A decimal digit. -/
def isDigit (c : Char) : Bool :=
  decide ('0'.toNat ≤ c.toNat) && decide (c.toNat ≤ '9'.toNat)

/-- The value of a run of decimal digits, continuing from `acc`. -/
def digitsValue (acc : Nat) : List Char → Nat
  | [] => acc
  | c :: cs => digitsValue (acc * 10 + (c.toNat - '0'.toNat)) cs

/-- The value of an optional ExponentPart at the head of `cs`: `e` or `E`,
an optional sign and at least one digit; `0` when there is none. -/
def exponentPart (cs : List Char) : Int :=
  match cs with
  | [] => 0
  | c :: rest =>
    if c == 'e' || c == 'E' then
      match rest with
      | '-' :: ds =>
        if (ds.takeWhile isDigit).isEmpty then 0 else -(digitsValue 0 (ds.takeWhile isDigit) : Int)
      | '+' :: ds => (digitsValue 0 (ds.takeWhile isDigit) : Int)
      | ds => (digitsValue 0 (ds.takeWhile isDigit) : Int)
    else 0

/-- The unsigned part of `parseFloat`: the longest prefix that is
`Infinity`, digits with optional fraction and exponent, or a fraction
starting with the point. -/
def parseUnsigned (negative : Bool) (cs : List Char) : JSNum :=
  if "Infinity".data.isPrefixOf cs then JSNum.inf negative
  else
    let intDigits := cs.takeWhile isDigit
    let signed : Nat → Int := fun n => if negative then -(n : Int) else (n : Int)
    match cs.dropWhile isDigit with
    | '.' :: afterPoint =>
      let fracDigits := afterPoint.takeWhile isDigit
      if intDigits.isEmpty && fracDigits.isEmpty then JSNum.nan
      else
        JSNum.dec (signed (digitsValue 0 (intDigits ++ fracDigits)))
          (exponentPart (afterPoint.dropWhile isDigit) - (fracDigits.length : Int))
    | afterInt =>
      if intDigits.isEmpty then JSNum.nan
      else JSNum.dec (signed (digitsValue 0 intDigits)) (exponentPart afterInt)

/-- `parseFloat(string)`: skip leading white space, read an optional sign,
then the longest numeric prefix; `NaN` when there is none. -/
def parseFloat (s : String) : JSNum :=
  match s.data.dropWhile isWhiteSpace with
  | '-' :: rest => parseUnsigned true rest
  | '+' :: rest => parseUnsigned false rest
  | rest => parseUnsigned false rest

/-- Array sort, insertion step: `x` moves past `y` only when the comparator
says `x` belongs after it (a positive result; `NaN` counts as zero).  The
comparator result `none` stands for a thrown exception. -/
def insertSorted {α : Type} (compareFn : α → α → Option JSNum) (x : α) :
    List α → Option (List α)
  | [] => some [x]
  | y :: ys =>
    match compareFn x y with
    | none => none
    | some v =>
      if v.isPositive then (insertSorted compareFn x ys).map (fun l => y :: l)
      else some (x :: y :: ys)

/-- `Array.prototype.sort(compareFn)` as a stable insertion sort (the result
ECMAScript prescribes for a consistent comparator); `none` when a comparator
call throws. -/
def arraySort {α : Type} (compareFn : α → α → Option JSNum) : List α → Option (List α)
  | [] => some []
  | x :: xs =>
    match arraySort compareFn xs with
    | none => none
    | some sorted => insertSorted compareFn x sorted

namespace DataTable

/-- `classList.remove('sort-asc', 'sort-desc')`. -/
def removeSortClasses (classList : List String) : List String :=
  classList.filter (fun c => !(c == "sort-asc" || c == "sort-desc"))

/-- `classList.add(token)`. -/
def addClass (classList : List String) (token : String) : List String :=
  if classList.contains token then classList else classList ++ [token]

/-- The body of the `forEach` that clears the sort state of one header. -/
def clearHeader (th : Header) : Header :=
  { classList := removeSortClasses th.classList
    icon := th.icon.map (fun _ => "fas fa-sort") }

/-- Apply `f` to the element at index `i`, if there is one. -/
def modifyAt {α : Type} (f : α → α) : Nat → List α → List α
  | _, [] => []
  | 0, x :: xs => f x :: xs
  | i + 1, x :: xs => x :: modifyAt f i xs

/-- The comparator passed to `rows.sort`; `none` when a row has no cell at
`columnIndex` (reading `textContent` of `undefined` throws). -/
def compareRows (rt : Runtime) (isAscending : Bool) (columnIndex : Nat) (a b : Row) :
    Option JSNum :=
  match a.cells[columnIndex]?, b.cells[columnIndex]? with
  | some aText, some bText =>
    let aValue := trim aText
    let bValue := trim bText
    let aNum := parseFloat aValue
    let bNum := parseFloat bValue
    if !aNum.isNaN && !bNum.isNaN then
      some (if isAscending then aNum.sub bNum else bNum.sub aNum)
    else
      some (if isAscending then JSNum.dec (rt.localeCompare aValue bValue) 0
        else JSNum.dec (rt.localeCompare bValue aValue) 0)
  | _, _ => none

/-- The state of the table when `sort` finishes, and whether it finished by
throwing. -/
structure SortOutcome where
  table : Table
  threw : Bool
  deriving DecidableEq, Repr

/-- The direction `sort(columnIndex)` chooses: `!header.classList.contains('sort-desc')`. -/
def isAscending (header : Header) : Bool :=
  !header.classList.contains "sort-desc"

/-- `DataTable.sort(columnIndex)`. -/
def sort (rt : Runtime) (t : Table) (columnIndex : Nat) : SortOutcome :=
  match t.headers[columnIndex]? with
  | none => { table := t, threw := true }
  | some header =>
    let asc := isAscending header
    let cleared := t.headers.map clearHeader
    let marked := modifyAt
      (fun th => { th with classList := addClass th.classList (if asc then "sort-asc" else "sort-desc") })
      columnIndex cleared
    match header.icon with
    | none => { table := { t with headers := marked }, threw := true }
    | some _ =>
      let headers := modifyAt
        (fun th => { th with icon := some (if asc then "fas fa-sort-up" else "fas fa-sort-down") })
        columnIndex marked
      match arraySort (compareRows rt asc columnIndex) t.rows with
      | none => { table := { headers := headers, rows := t.rows }, threw := true }
      | some sorted => { table := { headers := headers, rows := sorted }, threw := false }

/-- The head cells `sort` leaves behind once the header and its icon exist:
all cleared, then the clicked one marked with the chosen direction. -/
def sortedHeaders (headers : List Header) (columnIndex : Nat) (asc : Bool) : List Header :=
  modifyAt
    (fun th => { th with icon := some (if asc then "fas fa-sort-up" else "fas fa-sort-down") })
    columnIndex
    (modifyAt
      (fun th =>
        { th with classList := addClass th.classList (if asc then "sort-asc" else "sort-desc") })
      columnIndex (headers.map clearHeader))

end DataTable

/-! # Theorems -/

/-! ## Modal -/

/-- C8: from every state, `open()` then an Escape keydown leaves the modal
closed (display `none`, `isOpen()` false, body overflow empty); `close()`
then an Escape keydown leaves the state exactly as `close()` left it; and a
keydown with any other key leaves every state unchanged. -/
theorem modal_escape_state_machine (s : ModalState) :
    (Modal.keydown "Escape" (Modal.«open» s) = { display := "none", overflow := "" } ∧
      Modal.isOpen (Modal.keydown "Escape" (Modal.«open» s)) = false) ∧
    (Modal.isOpen (Modal.close s) = false ∧
      Modal.keydown "Escape" (Modal.close s) = Modal.close s) ∧
    (∀ key : String, key ≠ "Escape" → Modal.keydown key s = s) := by
  refine ⟨⟨rfl, rfl⟩, ⟨rfl, rfl⟩, ?_⟩
  intro key hkey
  simp [Modal.keydown, hkey]

/-- C8 at a concrete state: an open modal ignores the Enter key. -/
theorem modal_escape_state_machine_witness :
    "Enter" ≠ "Escape" ∧
      Modal.keydown "Enter" { display := "block", overflow := "hidden" } =
        { display := "block", overflow := "hidden" } :=
  ⟨by decide,
    (modal_escape_state_machine { display := "block", overflow := "hidden" }).2.2 "Enter"
      (by decide)⟩

/-! ## validateForm -/

theorem getProp_setProp {β : Type} (obj : List (String × β)) (key key' : String) (v : β) :
    getProp (setProp obj key v) key' = if key = key' then some v else getProp obj key' := by
  induction obj with
  | nil => simp [setProp, getProp]
  | cons kw rest ih =>
    obtain ⟨k, w⟩ := kw
    by_cases hk : k = key
    · subst hk
      by_cases hk' : k = key' <;> simp [setProp, getProp, hk']
    · by_cases hk' : k = key'
      · subst hk'
        simp [setProp, getProp, hk, Ne.symm hk]
      · simp [setProp, getProp, hk, hk', ih]

theorem getProp_spread_of_not_key {β : Type} (target source : List (String × β)) (key : String)
    (hkey : key ∉ source.map Prod.fst) :
    getProp (spread target source) key = getProp target key := by
  unfold spread
  induction source generalizing target with
  | nil => rfl
  | cons kv rest ih =>
    simp only [List.map_cons, List.mem_cons, not_or] at hkey
    rw [List.foldl_cons, ih _ hkey.2, getProp_setProp, if_neg (Ne.symm hkey.1)]

theorem getProp_eq_none_of_not_key {β : Type} (obj : List (String × β)) (key : String)
    (hkey : key ∉ obj.map Prod.fst) : getProp obj key = none := by
  induction obj with
  | nil => rfl
  | cons kv rest ih =>
    obtain ⟨k, w⟩ := kv
    simp only [List.map_cons, List.mem_cons, not_or] at hkey
    simp [getProp, Ne.symm hkey.1, ih hkey.2]

/-- When `options` has no own `headers` property, as for the options built
by `API.get`, `API.post`, `API.put` and `API.delete`, the init object keeps
the default headers `{ 'Content-Type': 'application/json' }`. -/
theorem requestInit_headers_of_no_headers (options : List (String × JSVal))
    (hkey : "headers" ∉ options.map Prod.fst) :
    getProp (requestInit options) "headers" =
      some (JSVal.obj [("Content-Type", "application/json")]) := by
  unfold requestInit
  rw [getProp_spread_of_not_key _ _ _ hkey]
  simp [optionsHeaders, getProp_eq_none_of_not_key options "headers" hkey, ownEntries, spread,
    getProp]

theorem requestInit_verbs (body : JSVal) :
    hasJsonContentType (requestInit getOptions) = true ∧
    hasJsonContentType (requestInit (postOptions body)) = true ∧
    hasJsonContentType (requestInit (putOptions body)) = true ∧
    hasJsonContentType (requestInit deleteOptions) = true := by
  refine ⟨by decide, ?_, ?_, by decide⟩
  · have h := requestInit_headers_of_no_headers (postOptions body) (by simp [postOptions])
    simp [hasJsonContentType, h, getProp]
  · have h := requestInit_headers_of_no_headers (putOptions body) (by simp [putOptions])
    simp [hasJsonContentType, h, getProp]

/-- C3, the code at an options object that carries its own headers without a
`Content-Type` key: the trailing `...options` replaces the merged headers
object, so the init passed to `fetch` has exactly the caller's headers and
no `Content-Type` at all. -/
theorem requestInit_own_headers_lose_content_type :
    requestInit [("headers", JSVal.obj [("Authorization", "Bearer token")])] =
      [("headers", JSVal.obj [("Authorization", "Bearer token")])] ∧
    hasJsonContentType
      (requestInit [("headers", JSVal.obj [("Authorization", "Bearer token")])]) = false := by
  decide

/-- C7: when `fetch` resolves with a response whose `ok` is false, the call
rejects with the error `HTTP error! status: <status>` (so no parsed body is
returned) and exactly one notification is shown, with the generic message
and type `error`; when the response is ok and its JSON parses, the call
resolves with the parsed body and performs no side effect. -/
theorem request_outcome {β : Type} (fetch : String → List (String × JSVal) → FetchOutcome β)
    (url : String) (options : List (String × JSVal)) (response : Response β)
    (hfetch : fetch url (requestInit options) = FetchOutcome.resolved response) :
    (response.ok = false →
      (request fetch url options).1 =
          Except.error { message := "HTTP error! status: " ++ toString response.status } ∧
        notifications (request fetch url options).2 =
          [("An error occurred. Please try again.", "error")]) ∧
    (∀ body, response.ok = true → response.json = Except.ok body →
      request fetch url options = (Except.ok body, [])) := by
  constructor
  · intro hok
    simp [request, requestBody, hfetch, hok, notifications]
  · intro body hok hjson
    simp [request, requestBody, hfetch, hok, hjson]

/-- C7 at a concrete mock: a 404 response rejects with one notification. -/
theorem request_outcome_witness :
    (request (fun _ _ => FetchOutcome.resolved
        ({ ok := false, status := 404, json := Except.ok "ignored" } : Response String))
      "/api/patients" deleteOptions).1 =
        Except.error { message := "HTTP error! status: " ++ toString 404 } ∧
    notifications (request (fun _ _ => FetchOutcome.resolved
        ({ ok := false, status := 404, json := Except.ok "ignored" } : Response String))
      "/api/patients" deleteOptions).2 =
        [("An error occurred. Please try again.", "error")] :=
  (request_outcome (fun _ _ => FetchOutcome.resolved
      ({ ok := false, status := 404, json := Except.ok "ignored" } : Response String))
    "/api/patients" deleteOptions
    { ok := false, status := 404, json := Except.ok "ignored" } rfl).1 rfl

/-! ## DataTable.search -/

theorem includesChars_iff (text term : List Char) :
    includesChars text term = true ↔ term <:+: text := by
  induction text with
  | nil =>
    cases term <;> simp [includesChars, List.isPrefixOf]
  | cons c rest ih =>
    rw [includesChars, Bool.or_eq_true, ih, List.infix_cons_iff, List.isPrefixOf_iff_prefix]

/-- C5: after `search(q)` the rows are the same rows in the same order with
the same cells and text, and each is visible (display empty) exactly when
its lower-cased text contains the lower-cased query as a substring, hidden
(display `none`) otherwise; `search('')` makes every row visible. -/
theorem search_visible_iff (rt : Runtime) (q : String) (t : Table) :
    (DataTable.search rt q t).headers = t.headers ∧
    List.Forall₂
      (fun row row' =>
        row'.cells = row.cells ∧ row'.textContent = row.textContent ∧
        (row'.display = "" ↔
          (rt.toLowerCase q).data <:+: (rt.toLowerCase row.textContent).data) ∧
        (row'.display = "none" ↔
          ¬ (rt.toLowerCase q).data <:+: (rt.toLowerCase row.textContent).data))
      t.rows (DataTable.search rt q t).rows ∧
    (∀ row' ∈ (DataTable.search rt "" t).rows, row'.display = "") := by
  refine ⟨rfl, ?_, ?_⟩
  · simp only [DataTable.search, List.forall₂_map_right_iff]
    apply List.forall₂_same.2
    intro row _
    refine ⟨rfl, rfl, ?_, ?_⟩
    · by_cases h : includes (rt.toLowerCase row.textContent) (rt.toLowerCase q) = true
      · simp [h, (includesChars_iff _ _).1 h]
      · have h' : ¬ (rt.toLowerCase q).data <:+: (rt.toLowerCase row.textContent).data :=
          fun hc => h ((includesChars_iff _ _).2 hc)
        simp [h, h']
    · by_cases h : includes (rt.toLowerCase row.textContent) (rt.toLowerCase q) = true
      · simp [h, (includesChars_iff _ _).1 h]
      · have h' : ¬ (rt.toLowerCase q).data <:+: (rt.toLowerCase row.textContent).data :=
          fun hc => h ((includesChars_iff _ _).2 hc)
        simp [h, h']
  · intro row' hrow'
    simp only [DataTable.search, List.mem_map] at hrow'
    obtain ⟨row, _, rfl⟩ := hrow'
    have : includes (rt.toLowerCase row.textContent) (rt.toLowerCase "") = true := by
      rw [rt.toLowerCase_empty]
      exact (includesChars_iff _ _).2 List.nil_infix
    simp [this]


/-! ## isValidEmail -/

namespace Regex

theorem nullable_iff (r : Regex) : nullable r = true ↔ Matches r [] := by
  induction r with
  | empty => simp [nullable, Matches]
  | eps => simp [nullable, Matches]
  | cls p => simp [nullable, Matches]
  | alt r t ihr iht => simp [nullable, Matches, ihr, iht]
  | seq r t ihr iht =>
    simp only [nullable, Bool.and_eq_true, ihr, iht, Matches]
    constructor
    · rintro ⟨h1, h2⟩
      exact ⟨[], [], rfl, h1, h2⟩
    · rintro ⟨u, v, huv, h1, h2⟩
      have huv' := huv.symm
      rw [List.append_eq_nil] at huv'
      obtain ⟨rfl, rfl⟩ := huv'
      exact ⟨h1, h2⟩
  | star r _ =>
    simp only [nullable, Matches, true_iff]
    exact ⟨[], rfl, by simp⟩

theorem matches_star_cons (r : Regex) (a : Char) (s : List Char) :
    Matches (star r) (a :: s) ↔
      ∃ u v, s = u ++ v ∧ Matches r (a :: u) ∧ Matches (star r) v := by
  constructor
  · rintro ⟨L, hL, hall⟩
    induction L with
    | nil => simp at hL
    | cons w L ih =>
      cases w with
      | nil =>
        exact ih (by simpa using hL) (fun u hu => hall u (by simp [hu]))
      | cons b u =>
        simp only [List.flatten_cons, List.cons_append, List.cons.injEq] at hL
        obtain ⟨rfl, rfl⟩ := hL
        exact ⟨u, L.flatten, rfl, hall _ (by simp), L, rfl, fun w hw => hall w (by simp [hw])⟩
  · rintro ⟨u, v, rfl, hu, L, rfl, hall⟩
    refine ⟨(a :: u) :: L, by simp, ?_⟩
    intro w hw
    rcases List.mem_cons.1 hw with rfl | hw
    · exact hu
    · exact hall w hw

theorem matches_deriv (r : Regex) (a : Char) (s : List Char) :
    Matches (deriv r a) s ↔ Matches r (a :: s) := by
  induction r generalizing s with
  | empty => simp [deriv, Matches]
  | eps => simp [deriv, Matches]
  | cls p =>
    by_cases hp : p a = true
    · simp only [deriv, hp, if_true, Matches]
      constructor
      · rintro rfl
        exact ⟨a, rfl, hp⟩
      · rintro ⟨c, hc, _⟩
        simp only [List.cons.injEq] at hc
        exact hc.2
    · simp only [deriv, hp, Matches, false_iff, not_exists, not_and]
      intro c hc
      simp only [List.cons.injEq] at hc
      rw [← hc.1]
      exact hp
  | alt r t ihr iht => simp [deriv, Matches, ihr, iht]
  | seq r t ihr iht =>
    have hseq : Matches (seq (deriv r a) t) s ↔
        ∃ u v, s = u ++ v ∧ Matches r (a :: u) ∧ Matches t v := by
      simp only [Matches, ihr]
    have hcons : Matches (seq r t) (a :: s) ↔
        (Matches r [] ∧ Matches t (a :: s)) ∨
          ∃ u v, s = u ++ v ∧ Matches r (a :: u) ∧ Matches t v := by
      simp only [Matches]
      constructor
      · rintro ⟨u, v, huv, hu, hv⟩
        cases u with
        | nil =>
          simp only [List.nil_append] at huv
          subst huv
          exact Or.inl ⟨hu, hv⟩
        | cons b u =>
          simp only [List.cons_append, List.cons.injEq] at huv
          obtain ⟨rfl, rfl⟩ := huv
          exact Or.inr ⟨u, v, rfl, hu, hv⟩
      · rintro (⟨h1, h2⟩ | ⟨u, v, rfl, hu, hv⟩)
        · exact ⟨[], a :: s, rfl, h1, h2⟩
        · exact ⟨a :: u, v, rfl, hu, hv⟩
    by_cases hn : nullable r = true
    · have hnil := (nullable_iff r).1 hn
      simp only [deriv, hn, if_true]
      rw [hcons]
      show Matches (seq (deriv r a) t) s ∨ Matches (deriv t a) s ↔ _
      rw [hseq, iht]
      constructor
      · rintro (h | h)
        · exact Or.inr h
        · exact Or.inl ⟨hnil, h⟩
      · rintro (h | h)
        · exact Or.inr h.2
        · exact Or.inl h
    · have hnil : ¬ Matches r [] := fun h => hn ((nullable_iff r).2 h)
      have hn' : nullable r = false := by simpa using hn
      simp only [deriv, hn', Bool.false_eq_true, if_false]
      rw [hcons, hseq]
      simp [hnil]
  | star r ih =>
    rw [matches_star_cons]
    simp only [deriv, Matches, ih]

theorem test_iff (r : Regex) (s : List Char) : test r s = true ↔ Matches r s := by
  induction s generalizing r with
  | nil => simp [test, nullable_iff]
  | cons a s ih => simp [test, ih, matches_deriv]

theorem matches_star_cls (p : Char → Bool) (s : List Char) :
    Matches (star (cls p)) s ↔ ∀ c ∈ s, p c = true := by
  induction s with
  | nil =>
    simp only [List.not_mem_nil, false_implies, implies_true, iff_true]
    exact (nullable_iff (star (cls p))).1 rfl
  | cons a s ih =>
    rw [matches_star_cons]
    constructor
    · rintro ⟨u, v, rfl, ⟨c, hc, hpc⟩, hv⟩
      simp only [List.cons.injEq] at hc
      obtain ⟨rfl, rfl⟩ := hc
      intro d hd
      rcases List.mem_cons.1 hd with rfl | hd
      · exact hpc
      · exact (ih.1 (by simpa using hv)) d (by simpa using hd)
    · intro h
      exact ⟨[], s, rfl, ⟨a, rfl, h a (by simp)⟩, ih.2 (fun c hc => h c (by simp [hc]))⟩

theorem matches_plus_cls (p : Char → Bool) (s : List Char) :
    Matches (plus (cls p)) s ↔ s ≠ [] ∧ ∀ c ∈ s, p c = true := by
  unfold plus
  constructor
  · rintro ⟨u, v, rfl, ⟨c, rfl, hc⟩, hv⟩
    refine ⟨by simp, ?_⟩
    intro d hd
    rcases List.mem_cons.1 hd with rfl | hd
    · exact hc
    · exact (matches_star_cls p v).1 hv d hd
  · rintro ⟨hne, hall⟩
    cases s with
    | nil => exact absurd rfl hne
    | cons a s =>
      exact ⟨[a], s, rfl, ⟨a, rfl, hall a (by simp)⟩,
        (matches_star_cls p s).2 (fun c hc => hall c (by simp [hc]))⟩

theorem matches_chr (c : Char) (s : List Char) : Matches (chr c) s ↔ s = [c] := by
  simp [chr, Matches]

end Regex

theorem matches_emailRegex (s : List Char) :
    Regex.Matches emailRegex s ↔
      ∃ l x y, s = l ++ '@' :: (x ++ '.' :: y) ∧
        (l ≠ [] ∧ ∀ c ∈ l, notSpaceOrAt c = true) ∧
        (x ≠ [] ∧ ∀ c ∈ x, notSpaceOrAt c = true) ∧
        (y ≠ [] ∧ ∀ c ∈ y, notSpaceOrAt c = true) := by
  unfold emailRegex
  simp only [Regex.Matches.eq_5, Regex.matches_plus_cls, Regex.matches_chr]
  constructor
  · rintro ⟨l, _, rfl, hl, _, _, rfl, rfl, x, _, rfl, hx, _, y, rfl, rfl, hy⟩
    exact ⟨l, x, y, by simp, hl, hx, hy⟩
  · rintro ⟨l, x, y, rfl, hl, hx, hy⟩
    exact ⟨l, _, rfl, hl, ['@'], _, rfl, rfl, x, _, rfl, hx, ['.'], y, rfl, rfl, hy⟩

theorem notSpaceOrAt_iff (c : Char) :
    notSpaceOrAt c = true ↔ isWhiteSpace c = false ∧ c ≠ '@' := by
  simp [notSpaceOrAt]

/-- C6: `isValidEmail` accepts a string exactly when it contains no white
space, contains exactly one `@`, the part before the `@` is non-empty, and
the part after the `@` contains a `.` with at least one character before it
and at least one after it; `a@b.com` is accepted and `a@b` is rejected. -/
theorem isValidEmail_iff (email : String) :
    (isValidEmail email = true ↔
      (∀ c ∈ email.data, isWhiteSpace c = false) ∧
      email.data.count '@' = 1 ∧
      ∃ before after, email.data = before ++ '@' :: after ∧ before ≠ [] ∧
        ∃ x y, after = x ++ '.' :: y ∧ x ≠ [] ∧ y ≠ []) ∧
    isValidEmail "a@b.com" = true ∧ isValidEmail "a@b" = false := by
  refine ⟨?_, by decide, by decide⟩
  unfold isValidEmail
  rw [Regex.test_iff, matches_emailRegex]
  have hcount : ∀ l : List Char, (∀ c ∈ l, notSpaceOrAt c = true) → l.count '@' = 0 := by
    intro l hl
    rw [List.count_eq_zero]
    intro hmem
    exact ((notSpaceOrAt_iff _).1 (hl _ hmem)).2 rfl
  constructor
  · rintro ⟨l, x, y, hs, ⟨hl, hlp⟩, ⟨hx, hxp⟩, ⟨hy, hyp⟩⟩
    refine ⟨?_, ?_, l, x ++ '.' :: y, hs, hl, x, y, rfl, hx, hy⟩
    · intro c hc
      rw [hs] at hc
      simp only [List.mem_append, List.mem_cons] at hc
      rcases hc with hc | rfl | hc | rfl | hc
      · exact ((notSpaceOrAt_iff _).1 (hlp c hc)).1
      · decide
      · exact ((notSpaceOrAt_iff _).1 (hxp c hc)).1
      · decide
      · exact ((notSpaceOrAt_iff _).1 (hyp c hc)).1
    · rw [hs]
      simp only [List.count_append, List.count_cons, hcount l hlp, hcount x hxp, hcount y hyp]
      decide
  · rintro ⟨hws, hone, l, d, hs, hl, x, y, rfl, hx, hy⟩
    rw [hs] at hone hws
    simp only [List.count_append, List.count_cons] at hone
    have h1 : (('@' : Char) == '@') = true := by decide
    have h2 : (('.' : Char) == '@') = false := by decide
    simp only [h1, h2, if_true] at hone
    have hzero : l.count '@' = 0 ∧ x.count '@' = 0 ∧ y.count '@' = 0 := by
      simp at hone
      omega
    have hall : ∀ part : List Char, part.count '@' = 0 →
        (∀ c ∈ part, c ∈ l ++ '@' :: (x ++ '.' :: y)) →
        ∀ c ∈ part, notSpaceOrAt c = true := by
      intro part hz hsub c hc
      rw [notSpaceOrAt_iff]
      refine ⟨hws c (hsub c hc), ?_⟩
      rintro rfl
      exact (List.count_eq_zero.1 hz) hc
    exact ⟨l, x, y, hs,
      ⟨hl, hall l hzero.1 (fun c hc => by simp [hc])⟩,
      ⟨hx, hall x hzero.2.1 (fun c hc => by simp [hc])⟩,
      ⟨hy, hall y hzero.2.2 (fun c hc => by simp [hc])⟩⟩


/-! ## DataTable.sort: the header indicators -/

namespace DataTable

theorem getElem?_modifyAt {α : Type} (f : α → α) (i j : Nat) (l : List α) :
    (modifyAt f i l)[j]? = if i = j then l[j]?.map f else l[j]? := by
  induction l generalizing i j with
  | nil => cases i <;> simp [modifyAt]
  | cons x xs ih =>
    cases i with
    | zero =>
      cases j with
      | zero => simp [modifyAt]
      | succ j => simp [modifyAt]
    | succ i =>
      cases j with
      | zero => simp [modifyAt]
      | succ j => simp [modifyAt, ih]

theorem sort_headers (rt : Runtime) (t : Table) (columnIndex : Nat) (header : Header)
    (hheader : t.headers[columnIndex]? = some header) (hicon : header.icon.isSome = true) :
    (sort rt t columnIndex).table.headers =
      sortedHeaders t.headers columnIndex (isAscending header) := by
  obtain ⟨icon, hicon'⟩ := Option.isSome_iff_exists.1 hicon
  unfold sort
  simp only [hheader, hicon']
  cases arraySort (compareRows rt (isAscending header) columnIndex) t.rows <;> rfl

theorem not_mem_removeSortClasses (classList : List String) :
    "sort-asc" ∉ removeSortClasses classList ∧ "sort-desc" ∉ removeSortClasses classList := by
  simp [removeSortClasses]

theorem mem_addClass (classList : List String) (token c : String) :
    c ∈ addClass classList token ↔ c ∈ classList ∨ c = token := by
  unfold addClass
  by_cases h : classList.contains token = true
  · simp only [h, if_true]
    constructor
    · exact Or.inl
    · rintro (hc | rfl)
      · exact hc
      · simpa using h
  · have h' : token ∉ classList := by simpa using h
    simp [h']


theorem sortedHeaders_clicked (headers : List Header) (c : Nat) (asc : Bool) (header : Header)
    (hheader : headers[c]? = some header) :
    (sortedHeaders headers c asc)[c]? =
      some
        { classList :=
            addClass (removeSortClasses header.classList)
              (if asc then "sort-asc" else "sort-desc")
          icon := some (if asc then "fas fa-sort-up" else "fas fa-sort-down") } := by
  unfold sortedHeaders
  rw [getElem?_modifyAt, getElem?_modifyAt, List.getElem?_map]
  simp [hheader, clearHeader]

/-- The direction never changes: whatever direction `sort(c)` chose, the
header it leaves behind makes the next `sort(c)` choose the same one. -/
theorem isAscending_after_sort (rt : Runtime) (t : Table) (c : Nat) (header header' : Header)
    (hheader : t.headers[c]? = some header) (hicon : header.icon.isSome = true)
    (hafter : (sort rt t c).table.headers[c]? = some header') :
    isAscending header' = isAscending header := by
  rw [sort_headers rt t c header hheader hicon, sortedHeaders_clicked _ _ _ _ hheader] at hafter
  simp only [Option.some.injEq] at hafter
  subst hafter
  have hrem := not_mem_removeSortClasses header.classList
  cases hasc : isAscending header
  · have : "sort-desc" ∈ addClass (removeSortClasses header.classList) "sort-desc" :=
      (mem_addClass _ _ _).2 (Or.inr rfl)
    simp [isAscending, this]
  · have : "sort-desc" ∉ addClass (removeSortClasses header.classList) "sort-asc" :=
      fun h => ((mem_addClass _ _ _).1 h).elim hrem.2 (by decide)
    simp [isAscending, this]

/-- C4, the code on two consecutive clicks of the same header, starting
with no sort class: the first `sort(0)` sorts ascending and marks the header
`sort-asc`; the second `sort(0)` finds no `sort-desc` on the header, so it
sorts ascending again and marks `sort-asc` again, never `sort-desc`. -/
theorem sort_twice_stays_ascending :
    sort asciiRuntime
      { headers := [{ classList := [], icon := some "fas fa-sort" }],
        rows := [{ cells := ["2"], textContent := "2", display := "" },
                 { cells := ["10"], textContent := "10", display := "" },
                 { cells := ["9"], textContent := "9", display := "" }] } 0 =
      { table :=
          { headers := [{ classList := ["sort-asc"], icon := some "fas fa-sort-up" }],
            rows := [{ cells := ["2"], textContent := "2", display := "" },
                     { cells := ["9"], textContent := "9", display := "" },
                     { cells := ["10"], textContent := "10", display := "" }] },
        threw := false } ∧
    sort asciiRuntime
      (sort asciiRuntime
        { headers := [{ classList := [], icon := some "fas fa-sort" }],
          rows := [{ cells := ["2"], textContent := "2", display := "" },
                   { cells := ["10"], textContent := "10", display := "" },
                   { cells := ["9"], textContent := "9", display := "" }] } 0).table 0 =
      { table :=
          { headers := [{ classList := ["sort-asc"], icon := some "fas fa-sort-up" }],
            rows := [{ cells := ["2"], textContent := "2", display := "" },
                     { cells := ["9"], textContent := "9", display := "" },
                     { cells := ["10"], textContent := "10", display := "" }] },
        threw := false } := by
  decide

end DataTable


/-! ## DataTable.sort: the row order -/

theorem insertSorted_eq_orderedInsert {α : Type} (compareFn : α → α → Option JSNum)
    (r : α → α → Prop) [DecidableRel r] (x : α) (ys : List α)
    (hcmp : ∀ y ∈ ys, ∃ v, compareFn x y = some v ∧ (v.isPositive = true ↔ ¬ r x y)) :
    insertSorted compareFn x ys = some (List.orderedInsert r x ys) := by
  induction ys with
  | nil => rfl
  | cons y ys ih =>
    obtain ⟨v, hv, hpos⟩ := hcmp y (by simp)
    have ih' := ih (fun z hz => hcmp z (by simp [hz]))
    by_cases hr : r x y
    · have hv' : v.isPositive = false := by
        cases h : v.isPositive
        · rfl
        · exact absurd hr (hpos.1 h)
      simp [insertSorted, hv, hv', hr]
    · have hv' : v.isPositive = true := hpos.2 hr
      simp [insertSorted, hv, hv', hr, ih']

theorem arraySort_eq_insertionSort {α : Type} (compareFn : α → α → Option JSNum)
    (r : α → α → Prop) [DecidableRel r] (l : List α)
    (hcmp : ∀ a ∈ l, ∀ b ∈ l, ∃ v, compareFn a b = some v ∧ (v.isPositive = true ↔ ¬ r a b)) :
    arraySort compareFn l = some (List.insertionSort r l) := by
  induction l with
  | nil => rfl
  | cons x xs ih =>
    have ih' := ih (fun a ha b hb => hcmp a (by simp [ha]) b (by simp [hb]))
    have hins := insertSorted_eq_orderedInsert compareFn r x (List.insertionSort r xs)
      (fun y hy => hcmp x (by simp) y
        (by simp [(List.perm_insertionSort r xs).mem_iff.1 hy]))
    simp [arraySort, ih', hins]

namespace DataTable

theorem compareRows_of_int (rt : Runtime) (c : Nat) (a b : Row) (aText bText : String)
    (m n : Int) (ha : a.cells[c]? = some aText) (hb : b.cells[c]? = some bText)
    (hm : parseFloat (trim aText) = JSNum.dec m 0)
    (hn : parseFloat (trim bText) = JSNum.dec n 0) :
    compareRows rt true c a b = some (JSNum.dec (m - n) 0) := by
  simp [compareRows, ha, hb, hm, hn, JSNum.isNaN, JSNum.sub]

theorem compareRows_of_nan (rt : Runtime) (c : Nat) (a b : Row) (aText bText : String)
    (ha : a.cells[c]? = some aText) (hb : b.cells[c]? = some bText)
    (hnan : parseFloat (trim aText) = JSNum.nan ∨ parseFloat (trim bText) = JSNum.nan) :
    compareRows rt true c a b =
      some (JSNum.dec (rt.localeCompare (trim aText) (trim bText)) 0) := by
  rcases hnan with h | h <;> simp [compareRows, ha, hb, h, JSNum.isNaN]

theorem sort_rows (rt : Runtime) (t : Table) (c : Nat) (header : Header)
    (hheader : t.headers[c]? = some header) (hicon : header.icon.isSome = true)
    (sorted : List Row)
    (hsorted : arraySort (compareRows rt (isAscending header) c) t.rows = some sorted) :
    (sort rt t c).threw = false ∧ (sort rt t c).table.rows = sorted := by
  obtain ⟨icon, hicon'⟩ := Option.isSome_iff_exists.1 hicon
  unfold sort
  simp only [hheader, hicon', hsorted, and_self]

/-- C10: when the clicked header exists with its icon and does not carry
`sort-desc` (an ascending sort), and every body row's cell in column `c`
parses as an integer (one a double holds exactly), `sort(c)` returns normally and the body rows are a
permutation of the rows before the call, in non-decreasing order of the
numeric value of their column-`c` cell; thus `9` comes before `10`.  When a
cell of a compared pair does not parse as a number, the comparator orders
the pair by `localeCompare` of the trimmed cell texts. -/
theorem sort_numeric_ascending (rt : Runtime) (t : Table) (c : Nat) (header : Header)
    (value : Row → Int)
    (hheader : t.headers[c]? = some header) (hicon : header.icon.isSome = true)
    (hasc : "sort-desc" ∉ header.classList)
    (hnum : ∀ row ∈ t.rows, ∃ text, row.cells[c]? = some text ∧
      parseFloat (trim text) = JSNum.dec (value row) 0 ∧ |value row| ≤ 2 ^ 53) :
    ((sort rt t c).threw = false ∧
      List.Perm (sort rt t c).table.rows t.rows ∧
      List.Pairwise (fun a b => value a ≤ value b) (sort rt t c).table.rows) ∧
    (sort rt
        { headers := [{ classList := [], icon := some "fas fa-sort" }],
          rows := [{ cells := ["10"], textContent := "10", display := "" },
                   { cells := ["9"], textContent := "9", display := "" }] } 0).table.rows =
      [{ cells := ["9"], textContent := "9", display := "" },
       { cells := ["10"], textContent := "10", display := "" }] ∧
    (∀ a b aText bText, a.cells[c]? = some aText → b.cells[c]? = some bText →
      (parseFloat (trim aText) = JSNum.nan ∨ parseFloat (trim bText) = JSNum.nan) →
      compareRows rt true c a b =
        some (JSNum.dec (rt.localeCompare (trim aText) (trim bText)) 0)) := by
  refine ⟨?_, ?_, fun a b aText bText ha hb hnan => compareRows_of_nan rt c a b aText bText ha hb hnan⟩
  · have hdir : isAscending header = true := by
      simp [isAscending, hasc]
    let r : Row → Row → Prop := fun a b => value a ≤ value b
    haveI : IsTotal Row r := ⟨fun a b => le_total (value a) (value b)⟩
    haveI : IsTrans Row r := ⟨fun a b d hab hbd => le_trans hab hbd⟩
    have hsorted : arraySort (compareRows rt (isAscending header) c) t.rows =
        some (List.insertionSort r t.rows) := by
      rw [hdir]
      apply arraySort_eq_insertionSort
      intro a ha b hb
      obtain ⟨aText, hat, hav, _⟩ := hnum a ha
      obtain ⟨bText, hbt, hbv, _⟩ := hnum b hb
      refine ⟨_, compareRows_of_int rt c a b aText bText _ _ hat hbt hav hbv, ?_⟩
      simp only [JSNum.isPositive, decide_eq_true_eq, r]
      omega
    obtain ⟨h1, h2⟩ := sort_rows rt t c header hheader hicon _ hsorted
    rw [h2]
    exact ⟨h1, List.perm_insertionSort r t.rows, List.sorted_insertionSort r t.rows⟩
  · rfl

/-- C10 at a concrete table: three rows with cells `10`, ` 9 ` and `-3`
come out in the order `-3`, ` 9 `, `10`. -/
theorem sort_numeric_ascending_witness :
    (sort asciiRuntime
      { headers := [{ classList := [], icon := some "fas fa-sort" }],
        rows := [{ cells := ["10"], textContent := "10", display := "" },
                 { cells := [" 9 "], textContent := " 9 ", display := "" },
                 { cells := ["-3"], textContent := "-3", display := "" }] } 0).threw = false ∧
    List.Perm
      (sort asciiRuntime
        { headers := [{ classList := [], icon := some "fas fa-sort" }],
          rows := [{ cells := ["10"], textContent := "10", display := "" },
                   { cells := [" 9 "], textContent := " 9 ", display := "" },
                   { cells := ["-3"], textContent := "-3", display := "" }] } 0).table.rows
      [{ cells := ["10"], textContent := "10", display := "" },
       { cells := [" 9 "], textContent := " 9 ", display := "" },
       { cells := ["-3"], textContent := "-3", display := "" }] :=
  have h := (sort_numeric_ascending asciiRuntime
    { headers := [{ classList := [], icon := some "fas fa-sort" }],
      rows := [{ cells := ["10"], textContent := "10", display := "" },
               { cells := [" 9 "], textContent := " 9 ", display := "" },
               { cells := ["-3"], textContent := "-3", display := "" }] } 0
    { classList := [], icon := some "fas fa-sort" }
    (fun row => if row.cells = ["10"] then 10 else if row.cells = [" 9 "] then 9 else -3)
    rfl rfl (by decide)
    (by
      intro row hrow
      simp only [List.mem_cons, List.mem_singleton, List.not_mem_nil, or_false] at hrow
      rcases hrow with rfl | rfl | rfl
      · exact ⟨"10", rfl, by decide, by decide⟩
      · exact ⟨" 9 ", rfl, by decide, by decide⟩
      · exact ⟨"-3", rfl, by decide, by decide⟩)).1
  ⟨h.1, h.2.1⟩

end DataTable

end HMS
